import Mathlib

/-!
Verification of the xml-bible-to-roam converter (src/main.rs).

The program is shallowly embedded: the XML event stream becomes a list of
events, the streaming scan loop becomes a recursive function over that list,
and the `unwrap` panics in the source are modelled as a distinguished
`panicked` outcome, separate from the `Error` enum values.
-/

set_option maxHeartbeats 1000000

namespace Bible

/-- The `Error` enum of main.rs (payloads that are external error sources are
dropped; `BadChapter` keeps its `chapter: String` payload). -/
inductive Error where
  | OpenXML : Error
  | BadChapter (chapter : String) : Error
  | ParseError : Error
  | WriteJSON : Error
  | IOError : Error
deriving DecidableEq, Repr

/-- `struct BookAndChapter { book: String, chapter: usize }`. -/
structure BookAndChapter where
  book : String
  chapter : Nat
deriving DecidableEq, Repr

/-- Rust `char::is_whitespace` restricted to the ASCII fragment (the exotic
Unicode whitespace characters play no role in any claim). -/
def isWs (c : Char) : Bool :=
  c = ' ' ∨ c = '\t' ∨ c = '\n' ∨ c = '\r'

/-- Helper for `split_whitespace`: split a character list at whitespace,
keeping possibly-empty runs; `acc` is the current token, reversed. -/
def splitWsAux : List Char → List Char → List (List Char)
  | [], acc => [acc.reverse]
  | c :: cs, acc =>
    if isWs c then acc.reverse :: splitWsAux cs []
    else splitWsAux cs (c :: acc)

/-- Rust `str::split_whitespace`: whitespace-separated tokens, empty runs
discarded. -/
def splitWhitespace (s : String) : List String :=
  ((splitWsAux s.data []).filter (· ≠ [])).map (fun l => ⟨l⟩)

/-- Rust `usize::from_str` (64-bit target): optional leading `+`, then one or
more ASCII digits, rejecting values that overflow 64 bits. Returns the value
as a `Nat` on success. -/
def parseUsize (s : String) : Option Nat :=
  let cs := match s.data with
    | '+' :: rest => rest
    | l => l
  if cs = [] then none
  else if cs.all (·.isDigit) then
    let v := cs.foldl (fun a c => 10 * a + (c.toNat - 48)) 0
    if v < 2 ^ 64 then some v else none
  else none

/-- `fn parse_chapter(s: String) -> Result<BookAndChapter, Error>`:
`next_back` on the whitespace-split iterator takes the last token as the
chapter number; the remaining tokens, joined with single spaces, are the
book name. -/
def parse_chapter (s : String) : Except Error BookAndChapter :=
  let tokens := splitWhitespace s
  match tokens.getLast? with
  | none => .error (.BadChapter s)
  | some chapter_as_string =>
    let book := String.intercalate " " tokens.dropLast
    match parseUsize chapter_as_string with
    | none => .error (.BadChapter s)
    | some chapter => .ok ⟨book, chapter⟩

/-- Rust `format!("{}", n)` for `usize`: decimal digits. Fuel-based helper so
that the function is structurally recursive (`n + 1` digits always suffice);
`acc` collects already-produced low-order digits. -/
def natDigitsAux : Nat → Nat → List Char → List Char
  | 0, _, acc => acc
  | fuel + 1, n, acc =>
    if n < 10 then Nat.digitChar n :: acc
    else natDigitsAux fuel (n / 10) (Nat.digitChar (n % 10) :: acc)

/-- Decimal rendering of a `usize`, as Rust's `Display` produces it. -/
def natToString (n : Nat) : String := ⟨natDigitsAux (n + 1) n []⟩

/-- An event of the quick_xml reader, already decoded: start tags carry their
attribute list (key, unescaped value); `Text` carries the decoded character
data; `Err` stands for `read_event` returning `Err(_)`. -/
inductive XmlEvent where
  | Start (name : String) (attrs : List (String × String)) : XmlEvent
  | End (name : String) : XmlEvent
  | Text (s : String) : XmlEvent
  | Eof : XmlEvent
  | Err : XmlEvent
deriving DecidableEq, Repr

/-- `fn get_name(e) -> String`: the value of the first attribute whose key is
`"n"`. The source `unwrap`s the `find`; `none` here marks that panic. -/
def get_name (attrs : List (String × String)) : Option String :=
  (attrs.find? (fun a => a.1 = "n")).map (fun a => a.2)

/-- The `HashMap<String, Vec<usize>>` of requested chapters, as an
association list (only `get` is ever used on it, so the key order is
irrelevant). `entry(book).or_insert_with(Vec::new).push(chapter)`: -/
def addChapterTo : List (String × List Nat) → String → Nat → List (String × List Nat)
  | [], b, c => [(b, [c])]
  | (k, v) :: rest, b, c =>
    if k = b then (k, v ++ [c]) :: rest else (k, v) :: addChapterTo rest b c

/-- `all_expected_books`: fold the parsed selectors into the per-book map. -/
def buildReq (expected : List BookAndChapter) : List (String × List Nat) :=
  expected.foldl (fun acc cb => addChapterTo acc cb.book cb.chapter) []

/-- `HashMap::get` on the requested-chapters map. -/
def lookupReq (req : List (String × List Nat)) (book : String) : Option (List Nat) :=
  (req.find? (fun e => e.1 = book)).map (fun e => e.2)

/-- The mutable locals of the scan loop in `main`. -/
structure ScanState where
  in_book : Option (String × List Nat)
  in_chapter : Option Nat
  in_verse : Option String
  verses : List String
  finished_chapters : List (BookAndChapter × List String)
deriving Repr

/-- The initial scan state (all `None`, empty accumulators). -/
def initState : ScanState := ⟨none, none, none, [], []⟩

/-- Outcome of processing one event inside `loop { match ... }`:
continue with a new state, `break` out with the finished chapters (chapter
count reached or `Eof`), abort with `Error::ParseError`, or panic (an
`unwrap` failed). -/
inductive StepResult where
  | next (st : ScanState) : StepResult
  | done (finished : List (BookAndChapter × List String)) : StepResult
  | parseFailed : StepResult
  | panicked : StepResult
deriving Repr

/-- One iteration of the scan loop of `main` (lines 106-170 of main.rs),
faithful to the nested `match (e.name(), &in_book, in_chapter)` arms. -/
def step (num_expected_chapters : Nat) (req : List (String × List Nat))
    (st : ScanState) : XmlEvent → StepResult
  | .Start name attrs =>
    match name, st.in_book, st.in_chapter with
    | "b", none, _ =>
      match get_name attrs with
      | none => .panicked
      | some book =>
        .next { st with in_book := (lookupReq req book).map (fun chapters => (book, chapters)) }
    | "c", some (_, chapters), _ =>
      match get_name attrs with
      | none => .panicked
      | some nstr =>
        match parseUsize nstr with
        | none => .panicked
        | some chapter_num =>
          .next { st with in_chapter := if chapters.any (fun c => c = chapter_num) then some chapter_num else none }
    | "v", some _, some _ =>
      match get_name attrs with
      | none => .panicked
      | some v => .next { st with in_verse := some v }
    | _, _, _ => .next st
  | .End name =>
    match name, st.in_book, st.in_chapter with
    | "b", _, _ => .next { st with in_book := none, in_chapter := none }
    | "c", some (book, _), some chapter =>
      let finished := st.finished_chapters ++ [(⟨book, chapter⟩, st.verses)]
      if finished.length = num_expected_chapters then .done finished
      else .next { st with verses := [], finished_chapters := finished, in_chapter := none }
    | "v", some _, some _ => .next { st with in_verse := none }
    | _, _, _ => .next st
  | .Text t =>
    match st.in_book, st.in_chapter, st.in_verse with
    | some _, some _, some verse =>
      .next { st with verses := st.verses ++ [verse ++ ". " ++ t] }
    | _, _, _ => .next st
  | .Eof => .done st.finished_chapters
  | .Err => .parseFailed

/-- Result of the whole scan. -/
inductive ScanOutcome where
  | ok (finished : List (BookAndChapter × List String)) : ScanOutcome
  | parseFailed : ScanOutcome
  | panicked : ScanOutcome
deriving DecidableEq, Repr

/-- The scan loop, driven by the (finite) event stream. An exhausted stream
behaves like `Eof` (a real reader keeps yielding `Eof`). -/
def scanLoop (num : Nat) (req : List (String × List Nat)) :
    ScanState → List XmlEvent → ScanOutcome
  | st, [] => .ok st.finished_chapters
  | st, ev :: rest =>
    match step num req st ev with
    | .next st2 => scanLoop num req st2 rest
    | .done finished => .ok finished
    | .parseFailed => .parseFailed
    | .panicked => .panicked

/-- Output block (`struct RoamBlock`), a nested inductive because blocks can
carry child blocks. -/
inductive RoamBlock where
  | mk (string : String) (heading : Option Nat) (children : Option (List RoamBlock)) : RoamBlock
deriving Repr

/-- Field projection: `string`. -/
def RoamBlock.string : RoamBlock → String
  | .mk s _ _ => s

/-- Field projection: `heading`. -/
def RoamBlock.heading : RoamBlock → Option Nat
  | .mk _ h _ => h

/-- Field projection: `children`. -/
def RoamBlock.children : RoamBlock → Option (List RoamBlock)
  | .mk _ _ c => c

/-- `struct RoamDocument`. -/
structure RoamDocument where
  title : String
  children : List RoamBlock
deriving Repr

/-- The document builder of `main` (lines 172-200): one `RoamDocument` per
finished chapter. -/
def buildDoc (fc : BookAndChapter × List String) : RoamDocument :=
  let verse_blocks := fc.2.map (fun v => RoamBlock.mk v none none)
  { title := fc.1.book ++ " " ++ natToString fc.1.chapter
    children := [
      RoamBlock.mk ("Bible Book:: [[" ++ fc.1.book ++ "]]") none none,
      RoamBlock.mk ("[[" ++ fc.1.book ++ " " ++ natToString fc.1.chapter ++ "]]") none
        (some verse_blocks)] }

/-- `struct Config` as derived by structopt: a repeated `-c` selector flag
collected into `chapters`, and a `-f`/`--file` path flag with default
`"ESV.xml"`. These are the only fields. -/
structure Config where
  chapters : List String
  path : String
deriving DecidableEq, Repr

/-- structopt/clap argument parsing for `Config`: each `-c` occurrence takes
one value and is appended to `chapters`; `-f`/`--file` takes one value; any
other token is an unknown argument and the parse fails. -/
def parseArgsAux : List String → List String → Option String → Option Config
  | [], cs, p => some ⟨cs, p.getD "ESV.xml"⟩
  | "-c" :: v :: rest, cs, p => parseArgsAux rest (cs ++ [v]) p
  | "-f" :: v :: rest, cs, _p => parseArgsAux rest cs (some v)
  | "--file" :: v :: rest, cs, _p => parseArgsAux rest cs (some v)
  | _, _, _ => none

/-- `Config::from_args` on a given argument list (program name stripped). -/
def parseArgs (args : List String) : Option Config := parseArgsAux args [] none

/-- JSON values, for the shape of `serde_json` output. -/
inductive Json where
  | str (s : String) : Json
  | num (n : Nat) : Json
  | arr (xs : List Json) : Json
  | obj (fields : List (String × Json)) : Json
deriving Repr

/-- The keys of a JSON object (in serialization order); `[]` on non-objects. -/
def jsonKeys : Json → List String
  | .obj fields => fields.map (fun f => f.1)
  | _ => []

/-- serde serialization of `RoamBlock`: fields in declaration order, with
`heading` and `children` subject to `skip_serializing_if = "Option::is_none"`. -/
def blockToJson : RoamBlock → Json
  | .mk s h cs =>
    .obj (("string", .str s) ::
      ((match h with
        | some n => [("heading", Json.num n)]
        | none => []) ++
       (match cs with
        | some l => [("children", Json.arr (l.attach.map (fun c => blockToJson c.1)))]
        | none => [])))
decreasing_by
  have := List.sizeOf_lt_of_mem c.2
  simp only [RoamBlock.mk.sizeOf_spec, Option.some.sizeOf_spec]
  omega

/-- Result of a whole run of `main` after CLI parsing: JSON documents on
success, an `Error` value, or a panic. -/
inductive ProgResult where
  | ok (docs : List RoamDocument) : ProgResult
  | err (e : Error) : ProgResult
  | panicked : ProgResult
deriving Repr

/-- `main` from the point where `config.chapters` and the event stream are
fixed: parse the selectors, build the requested-chapters map, scan, build
documents. -/
def runProgram (chapters : List String) (evs : List XmlEvent) : ProgResult :=
  match chapters.mapM parse_chapter with
  | .error e => .err e
  | .ok expected_chapters =>
    let num_expected_chapters := expected_chapters.length
    let req := buildReq expected_chapters
    match scanLoop num_expected_chapters req initState evs with
    | .ok finished => .ok (finished.map buildDoc)
    | .parseFailed => .err .ParseError
    | .panicked => .panicked

/-- A well-formed event: not a reader error, and any `b`/`c`/`v` start tag
carries an `n` attribute (numeric for `c`), so that no `unwrap` in the scan
can fire. Used as the hypothesis of the no-error theorems. -/
def eventOk : XmlEvent → Bool
  | .Start name attrs =>
    match name with
    | "b" => (get_name attrs).isSome
    | "c" =>
      match get_name attrs with
      | some s => (parseUsize s).isSome
      | none => false
    | "v" => (get_name attrs).isSome
    | _ => true
  | .Err => false
  | _ => true

/-- The numeric value of a list of decimal digit characters (the inverse of
`natDigitsAux`, used to prove decimal rendering injective). -/
def digitsVal (cs : List Char) : Nat :=
  cs.foldl (fun a c => 10 * a + (c.toNat - 48)) 0

/-! ## Theorems -/

/-- C3: for every selector string `s`, parsing fails with `BadChapter`
carrying the original string exactly when whitespace-splitting yields zero
tokens or the last token does not parse as a non-negative integer (Rust
`usize` parse); otherwise it succeeds with chapter = the last token's value
and book = the remaining tokens rejoined with single spaces. -/
theorem parse_chapter_spec (s : String) :
    (splitWhitespace s = [] → parse_chapter s = .error (.BadChapter s)) ∧
    (∀ last, (splitWhitespace s).getLast? = some last →
      (parseUsize last = none → parse_chapter s = .error (.BadChapter s)) ∧
      (∀ n, parseUsize last = some n →
        parse_chapter s = .ok ⟨String.intercalate " " (splitWhitespace s).dropLast, n⟩)) := by
  constructor
  · intro h
    unfold parse_chapter
    simp [h]
  · intro last hlast
    constructor
    · intro hnone
      unfold parse_chapter
      simp [hlast, hnone]
    · intro n hn
      unfold parse_chapter
      simp [hlast, hn]

/-- C3 witness: `"First Book 12"` parses to book `"First Book"`,
chapter `12`. -/
theorem parse_chapter_spec_witness :
    parse_chapter "First Book 12" = .ok ⟨"First Book", 12⟩ :=
  ((parse_chapter_spec "First Book 12").2 "12" rfl).2 12 rfl

/-- C4: the document built from a finished chapter has title
`"<book> <chapter>"` and exactly two children in fixed order: a leaf block
`"Bible Book:: [[<book>]]"`, then a block `"[[<book> <chapter>]]"` whose
children are one leaf per buffered verse string, in order; no heading is
ever set. -/
theorem buildDoc_spec (bc : BookAndChapter) (vs : List String) :
    (buildDoc (bc, vs)).title = bc.book ++ " " ++ natToString bc.chapter ∧
    (buildDoc (bc, vs)).children = [
      RoamBlock.mk ("Bible Book:: [[" ++ bc.book ++ "]]") none none,
      RoamBlock.mk ("[[" ++ bc.book ++ " " ++ natToString bc.chapter ++ "]]") none
        (some (vs.map (fun v => RoamBlock.mk v none none)))] :=
  ⟨rfl, rfl⟩

/-- C2 counterexample: no book-name flag and no chapter-number flag exist;
the plausible spellings of a single-chapter command form are all rejected by
the CLI, whose only flags are `-c` and `-f`/`--file`. -/
theorem cli_no_single_chapter_form :
    parseArgs ["-b", "Genesis", "-n", "3"] = none ∧
    parseArgs ["--book", "Genesis", "--chapter", "3"] = none ∧
    parseArgs ["-b", "Genesis", "-c", "3"] = none := by
  refine ⟨rfl, rfl, rfl⟩

/-- C2 amended: the CLI has exactly one command form: a repeated `-c`
selector flag plus a `-f`/`--file` path flag defaulting to `"ESV.xml"`;
single-chapter use passes a single `-c` selector value. -/
theorem cli_surface (v w p : String) :
    parseArgs ["-c", v] = some ⟨[v], "ESV.xml"⟩ ∧
    parseArgs ["-c", v, "-f", p] = some ⟨[v], p⟩ ∧
    parseArgs ["-c", v, "-c", w] = some ⟨[v, w], "ESV.xml"⟩ ∧
    parseArgs [] = some ⟨[], "ESV.xml"⟩ := by
  refine ⟨rfl, rfl, rfl, rfl⟩

/-- C9: inputs on which the program panics (an `unwrap` fails) instead of
returning an `Error` value: a book/chapter/verse start element reached by
`get_name` without an `n` attribute, and a chapter-start inside a matched
book whose `n` value is not an unsigned integer. -/
theorem scan_panics :
    runProgram ["X 1"] [.Start "b" []] = .panicked ∧
    runProgram ["X 1"] [.Start "b" [("n", "X")], .Start "c" []] = .panicked ∧
    runProgram ["X 1"]
      [.Start "b" [("n", "X")], .Start "c" [("n", "1")], .Start "v" []] = .panicked ∧
    runProgram ["X 1"] [.Start "b" [("n", "X")], .Start "c" [("n", "foo")]] = .panicked := by
  refine ⟨rfl, rfl, rfl, rfl⟩

/-- C10: a book end boundary clears only `in_book` and `in_chapter`; the
verse accumulator, `in_verse` and the finished list are untouched. As a
consequence (second conjunct, concrete run): verses buffered in a matched
chapter whose book ends before the chapter closes are prepended to the next
finished chapter. -/
theorem book_end_frame :
    (∀ num req (st : ScanState),
      step num req st (.End "b") = .next { st with in_book := none, in_chapter := none }) ∧
    scanLoop 2 [("X", [1, 2])] initState
      [.Start "b" [("n", "X")], .Start "c" [("n", "1")], .Start "v" [("n", "1")],
       .Text "a", .End "b",
       .Start "b" [("n", "X")], .Start "c" [("n", "2")], .Start "v" [("n", "1")],
       .Text "b", .End "v", .End "c", .Eof]
      = .ok [(⟨"X", 2⟩, ["1. a", "1. b"])] := by
  refine ⟨fun num req st => rfl, rfl⟩

/-- C8: a text event extends the verse accumulator (by one entry
`"<label>. <text>"`) exactly when `in_book`, `in_chapter` and `in_verse` are
all set; in every other state the text is discarded and the state is
unchanged. -/
theorem text_capture (num : Nat) (req : List (String × List Nat)) (st : ScanState)
    (t : String) :
    (∀ bk ch L, st.in_book = some bk → st.in_chapter = some ch → st.in_verse = some L →
      step num req st (.Text t) = .next { st with verses := st.verses ++ [L ++ ". " ++ t] }) ∧
    ((st.in_book = none ∨ st.in_chapter = none ∨ st.in_verse = none) →
      step num req st (.Text t) = .next st) := by
  constructor
  · intro bk ch L hb hc hv
    unfold step
    rw [hb, hc, hv]
  · intro h
    unfold step
    rcases h with h | h | h <;> rw [h] <;>
      cases hb : st.in_book <;> cases hc : st.in_chapter <;> cases hv : st.in_verse <;> rfl

/-- C8 witness: text is captured in the fully-matched state and discarded in
the empty state. -/
theorem text_capture_witness :
    step 1 [] ⟨some ("X", [1]), some 1, some "2", ["old"], []⟩ (.Text "t")
      = .next ⟨some ("X", [1]), some 1, some "2", ["old", "2. t"], []⟩ ∧
    step 1 [] initState (.Text "t") = .next initState :=
  ⟨(text_capture 1 [] ⟨some ("X", [1]), some 1, some "2", ["old"], []⟩ "t").1
      ("X", [1]) 1 "2" rfl rfl rfl,
    (text_capture 1 [] initState "t").2 (Or.inl rfl)⟩

/-- C6: while a verse with label `L` is open (book, chapter and verse all
matched), `k` successive text runs append `k` separate `"L. <text>"` entries
to the accumulator — never one concatenated entry — and leave the rest of
the scan to continue on the remaining events. -/
theorem verse_text_runs (num : Nat) (req : List (String × List Nat)) (st : ScanState)
    (bk : String × List Nat) (ch : Nat) (L : String) (ts : List String)
    (rest : List XmlEvent)
    (hb : st.in_book = some bk) (hc : st.in_chapter = some ch)
    (hv : st.in_verse = some L) :
    scanLoop num req st (ts.map XmlEvent.Text ++ rest)
      = scanLoop num req { st with verses := st.verses ++ ts.map (fun t => L ++ ". " ++ t) } rest := by
  induction ts generalizing st with
  | nil => simp
  | cons t ts ih =>
    have hstep : step num req st (.Text t)
        = .next { st with verses := st.verses ++ [L ++ ". " ++ t] } := by
      unfold step
      rw [hb, hc, hv]
    simp only [List.map_cons, List.cons_append, scanLoop, hstep, List.append_eq]
    rw [ih { st with verses := st.verses ++ [L ++ ". " ++ t] } hb hc hv]
    simp [List.append_assoc]

/-- C6 witness: two text runs inside verse "2" append two separate entries. -/
theorem verse_text_runs_witness :
    scanLoop 2 [] ⟨some ("X", [1]), some 1, some "2", ["s"], []⟩
        [XmlEvent.Text "a", XmlEvent.Text "b", XmlEvent.Eof]
      = scanLoop 2 [] ⟨some ("X", [1]), some 1, some "2", ["s", "2. a", "2. b"], []⟩
        [XmlEvent.Eof] :=
  verse_text_runs 2 [] ⟨some ("X", [1]), some 1, some "2", ["s"], []⟩
    ("X", [1]) 1 "2" ["a", "b"] [XmlEvent.Eof] rfl rfl rfl

/-- C1 counterexample: the termination threshold is the TOTAL selector count,
not the number of distinct keys. The selector list `["X 1", "X 1"]` has one
distinct key; after the prefix ending in `End c` that key is finished (the
prefix alone yields one document), so under the claim the scan would read no
further events — yet appending one more (erroneous) event changes the
outcome to a parse error, i.e. the scan did read on. -/
theorem dup_selector_counterexample :
    (["X 1", "X 1"].mapM parse_chapter
      = Except.ok [(⟨"X", 1⟩ : BookAndChapter), ⟨"X", 1⟩]) ∧
    (([(⟨"X", 1⟩ : BookAndChapter), ⟨"X", 1⟩].map (fun bc => (bc.book, bc.chapter))).dedup.length
      = 1) ∧
    runProgram ["X 1", "X 1"]
      [.Start "b" [("n", "X")], .Start "c" [("n", "1")], .End "c"]
      = .ok [buildDoc (⟨"X", 1⟩, [])] ∧
    runProgram ["X 1", "X 1"]
      [.Start "b" [("n", "X")], .Start "c" [("n", "1")], .End "c", .Err]
      = .err .ParseError := by
  refine ⟨rfl, by decide, rfl, rfl⟩

/-- C1 amended: the scan terminates early, reading no further events, as
soon as the number of finished chapters equals `num_expected_chapters` — the
TOTAL number of parsed selectors, duplicates included. (Matching itself uses
a membership test, but the termination count does not deduplicate.) The
result is the same for every continuation `rest` of the stream. -/
theorem early_termination (num : Nat) (req : List (String × List Nat)) (st : ScanState)
    (book : String) (chapters : List Nat) (chapter : Nat) (rest : List XmlEvent)
    (hb : st.in_book = some (book, chapters)) (hc : st.in_chapter = some chapter)
    (hn : st.finished_chapters.length + 1 = num) :
    scanLoop num req st (.End "c" :: rest)
      = .ok (st.finished_chapters ++ [(⟨book, chapter⟩, st.verses)]) := by
  have hstep : step num req st (.End "c")
      = .done (st.finished_chapters ++ [(⟨book, chapter⟩, st.verses)]) := by
    unfold step
    rw [hb, hc]
    simp [hn]
  simp [scanLoop, hstep]

/-- C1 amended witness: with one chapter left to finish, `End c` stops the
scan even though a malformed event follows. -/
theorem early_termination_witness :
    scanLoop 1 [] ⟨some ("X", [1]), some 1, none, ["1. a"], []⟩ [.End "c", .Err]
      = .ok [(⟨"X", 1⟩, ["1. a"])] :=
  early_termination 1 [] ⟨some ("X", [1]), some 1, none, ["1. a"], []⟩
    "X" [1] 1 [.Err] rfl rfl rfl

/-- C5: a serialized block always carries the `"string"` key, and the
`"heading"` / `"children"` keys are absent from the object (not null) when
the corresponding field is `None`. -/
theorem block_json_keys (b : RoamBlock) :
    "string" ∈ jsonKeys (blockToJson b) ∧
    (b.heading = none → "heading" ∉ jsonKeys (blockToJson b)) ∧
    (b.children = none → "children" ∉ jsonKeys (blockToJson b)) := by
  obtain ⟨s, h, cs⟩ := b
  cases h <;> cases cs <;>
    simp [blockToJson, jsonKeys, RoamBlock.heading, RoamBlock.children]

/-- C5 witness: the leaf block with both optionals absent serializes with
only the `"string"` key. -/
theorem block_json_keys_witness :
    "string" ∈ jsonKeys (blockToJson (.mk "x" none none)) ∧
    "heading" ∉ jsonKeys (blockToJson (.mk "x" none none)) ∧
    "children" ∉ jsonKeys (blockToJson (.mk "x" none none)) :=
  ⟨(block_json_keys (.mk "x" none none)).1,
    (block_json_keys (.mk "x" none none)).2.1 rfl,
    (block_json_keys (.mk "x" none none)).2.2 rfl⟩

/-- On a well-formed event the step neither panics nor hits a parse error:
it continues or breaks. -/
theorem step_shape (num : Nat) (req : List (String × List Nat)) (st : ScanState)
    (ev : XmlEvent) (h : eventOk ev = true) :
    (∃ st2, step num req st ev = .next st2) ∨ (∃ f, step num req st ev = .done f) := by
  cases ev with
  | Start name attrs =>
    simp only [eventOk] at h
    simp only [step]
    split
    · cases hg : get_name attrs with
      | none => simp [hg] at h
      | some book => exact Or.inl ⟨_, by simp only [hg]; exact rfl⟩
    · cases hg : get_name attrs with
      | none => simp [hg] at h
      | some nstr =>
        cases hp : parseUsize nstr with
        | none => simp [hg, hp] at h
        | some chapter_num => exact Or.inl ⟨_, by simp only [hg, hp]; exact rfl⟩
    · cases hg : get_name attrs with
      | none => simp [hg] at h
      | some v => exact Or.inl ⟨_, by simp only [hg]; exact rfl⟩
    · exact Or.inl ⟨_, rfl⟩
  | End name =>
    simp only [step]
    split
    · exact Or.inl ⟨_, rfl⟩
    · split
      · exact Or.inr ⟨_, rfl⟩
      · exact Or.inl ⟨_, rfl⟩
    · exact Or.inl ⟨_, rfl⟩
    · exact Or.inl ⟨_, rfl⟩
  | Text t =>
    simp only [step]
    split
    · exact Or.inl ⟨_, rfl⟩
    · exact Or.inl ⟨_, rfl⟩
  | Eof => exact Or.inr ⟨_, rfl⟩
  | Err => simp [eventOk] at h

/-- The scan of a well-formed stream always ends in `ok`. -/
theorem scanLoop_ok (num : Nat) (req : List (String × List Nat)) :
    ∀ (evs : List XmlEvent) (st : ScanState), (∀ ev ∈ evs, eventOk ev = true) →
      ∃ finished, scanLoop num req st evs = .ok finished := by
  intro evs
  induction evs with
  | nil => exact fun st _ => ⟨st.finished_chapters, rfl⟩
  | cons ev rest ih =>
    intro st h
    have hev : eventOk ev = true := h ev (List.mem_cons_self ev rest)
    have hrest : ∀ e ∈ rest, eventOk e = true := fun e he => h e (List.mem_cons_of_mem ev he)
    rcases step_shape num req st ev hev with ⟨st2, hst⟩ | ⟨f, hf⟩
    · obtain ⟨fin, hfin⟩ := ih st2 hrest
      exact ⟨fin, by simp only [scanLoop, hst]; exact hfin⟩
    · exact ⟨f, by simp only [scanLoop, hf]⟩

/-- `Nat.digitChar` on a digit renders `d` as the character of code `d + 48`. -/
theorem digitChar_toNat (d : Nat) (h : d < 10) : (Nat.digitChar d).toNat = d + 48 := by
  interval_cases d <;> rfl

/-- `Nat.digitChar` on a digit yields a decimal digit character. -/
theorem digitChar_isDigit (d : Nat) (h : d < 10) : (Nat.digitChar d).isDigit = true := by
  interval_cases d <;> rfl

/-- The accumulator of `natDigitsAux` is just appended on the right. -/
theorem natDigitsAux_acc (fuel : Nat) :
    ∀ (n : Nat) (acc : List Char),
      natDigitsAux fuel n acc = natDigitsAux fuel n [] ++ acc := by
  induction fuel with
  | zero => intro n acc; rfl
  | succ fuel ih =>
    intro n acc
    by_cases h : n < 10
    · simp [natDigitsAux, h]
    · simp only [natDigitsAux, if_neg h]
      rw [ih (n / 10) [Nat.digitChar (n % 10)], ih (n / 10) (Nat.digitChar (n % 10) :: acc),
        List.append_assoc]
      rfl

/-- With enough fuel, decimal rendering round-trips through `digitsVal`. -/
theorem natDigitsAux_val (fuel : Nat) :
    ∀ n : Nat, n < 10 ^ fuel → digitsVal (natDigitsAux fuel n []) = n := by
  induction fuel with
  | zero => intro n hn; interval_cases n; rfl
  | succ fuel ih =>
    intro n hn
    by_cases h : n < 10
    · simp only [natDigitsAux, if_pos h]
      show 10 * 0 + ((Nat.digitChar n).toNat - 48) = n
      rw [digitChar_toNat n h]
      omega
    · simp only [natDigitsAux, if_neg h]
      rw [natDigitsAux_acc, digitsVal, List.foldl_append]
      have hdiv : n / 10 < 10 ^ fuel := by
        rw [Nat.div_lt_iff_lt_mul (by norm_num)]
        calc n < 10 ^ (fuel + 1) := hn
          _ = 10 ^ fuel * 10 := by ring
      have hval := ih (n / 10) hdiv
      rw [digitsVal] at hval
      rw [hval]
      show 10 * (n / 10) + ((Nat.digitChar (n % 10)).toNat - 48) = n
      rw [digitChar_toNat (n % 10) (Nat.mod_lt n (by norm_num))]
      omega

/-- Decimal rendering of a `usize` is injective. -/
theorem natToString_inj (a b : Nat) (h : natToString a = natToString b) : a = b := by
  have hd : natDigitsAux (a + 1) a [] = natDigitsAux (b + 1) b [] := congrArg String.data h
  have ha : a < 10 ^ (a + 1) :=
    lt_trans (Nat.lt_pow_self (by norm_num) a)
      (Nat.pow_lt_pow_right (by norm_num) (Nat.lt_succ_self a))
  have hb : b < 10 ^ (b + 1) :=
    lt_trans (Nat.lt_pow_self (by norm_num) b)
      (Nat.pow_lt_pow_right (by norm_num) (Nat.lt_succ_self b))
  have := congrArg digitsVal hd
  rwa [natDigitsAux_val _ a ha, natDigitsAux_val _ b hb] at this

/-- Every character produced by `natDigitsAux` is a decimal digit. -/
theorem natDigitsAux_digits (fuel : Nat) :
    ∀ (n : Nat) (c : Char), c ∈ natDigitsAux fuel n [] → c.isDigit = true := by
  induction fuel with
  | zero => intro n c hc; simp [natDigitsAux] at hc
  | succ fuel ih =>
    intro n c hc
    by_cases h : n < 10
    · simp only [natDigitsAux, if_pos h, List.mem_singleton] at hc
      rw [hc]; exact digitChar_isDigit n h
    · simp only [natDigitsAux, if_neg h] at hc
      rw [natDigitsAux_acc, List.mem_append] at hc
      rcases hc with hc | hc
      · exact ih (n / 10) c hc
      · simp only [List.mem_singleton] at hc
        rw [hc]; exact digitChar_isDigit (n % 10) (Nat.mod_lt n (by norm_num))

/-- A rendered chapter number contains no space. -/
theorem natToString_no_space (n : Nat) : ' ' ∉ (natToString n).data := by
  intro hmem
  have := natDigitsAux_digits (n + 1) n ' ' hmem
  simp [Char.isDigit] at this

/-- Splitting at a separator whose right parts are separator-free is
unambiguous. -/
theorem append_space_inj :
    ∀ (x1 x2 y1 y2 : List Char), ' ' ∉ x1 → ' ' ∉ x2 →
      x1 ++ ' ' :: y1 = x2 ++ ' ' :: y2 → x1 = x2 ∧ y1 = y2 := by
  intro x1
  induction x1 with
  | nil =>
    intro x2 y1 y2 _ h2 heq
    cases x2 with
    | nil => simpa using heq
    | cons c t =>
      simp only [List.nil_append, List.cons_append, List.cons.injEq] at heq
      exact absurd (heq.1 ▸ List.mem_cons_self c t) h2
  | cons c t ih =>
    intro x2 y1 y2 h1 h2 heq
    cases x2 with
    | nil =>
      simp only [List.nil_append, List.cons_append, List.cons.injEq] at heq
      exact absurd (heq.1 ▸ List.mem_cons_self c t) (heq.1 ▸ h1)
    | cons c2 t2 =>
      simp only [List.cons_append, List.cons.injEq] at heq
      obtain ⟨hc, hrest⟩ := heq
      have := ih t2 y1 y2 (fun hm => h1 (List.mem_cons_of_mem c hm))
        (fun hm => h2 (List.mem_cons_of_mem c2 hm)) hrest
      exact ⟨by rw [hc, this.1], this.2⟩

/-- A document title `"<book> <chapter>"` determines its chapter key: the
chapter digits are space-free, so the last space splits the title
unambiguously. -/
theorem mkTitle_inj (b1 b2 : String) (c1 c2 : Nat)
    (h : b1 ++ " " ++ natToString c1 = b2 ++ " " ++ natToString c2) :
    b1 = b2 ∧ c1 = c2 := by
  have hd := congrArg String.data h
  rw [String.data_append, String.data_append, String.data_append, String.data_append] at hd
  have h1 : b1.data ++ ' ' :: (natToString c1).data
      = b2.data ++ ' ' :: (natToString c2).data := by
    simpa [List.append_assoc] using hd
  have hr := congrArg List.reverse h1
  simp only [List.reverse_append, List.reverse_cons, List.append_assoc,
    List.singleton_append] at hr
  obtain ⟨hdig, hbook⟩ := append_space_inj
    (natToString c1).data.reverse (natToString c2).data.reverse
    b1.data.reverse b2.data.reverse
    (fun hm => natToString_no_space c1 (List.mem_reverse.mp hm))
    (fun hm => natToString_no_space c2 (List.mem_reverse.mp hm)) hr
  constructor
  · exact String.ext (List.reverse_injective hbook)
  · exact natToString_inj c1 c2 (String.ext (List.reverse_injective hdig))

/-- C7: on a well-formed stream, the run succeeds (no error), the output is
one document per finished chapter, and a requested key that the scan never
matched to a finished chapter contributes no document: no output document
bears its title. -/
theorem unmatched_key_no_error (sels : List String) (expected : List BookAndChapter)
    (evs : List XmlEvent) (B : String) (C : Nat)
    (hsel : sels.mapM parse_chapter = Except.ok expected)
    (hok : ∀ ev ∈ evs, eventOk ev = true) :
    ∃ finished, scanLoop expected.length (buildReq expected) initState evs = .ok finished ∧
      runProgram sels evs = .ok (finished.map buildDoc) ∧
      ((∀ fc ∈ finished, fc.1 ≠ BookAndChapter.mk B C) →
        ∀ d ∈ finished.map buildDoc, d.title ≠ B ++ " " ++ natToString C) := by
  obtain ⟨finished, hfin⟩ := scanLoop_ok expected.length (buildReq expected) evs initState hok
  refine ⟨finished, hfin, ?_, ?_⟩
  · unfold runProgram
    rw [hsel]
    simp only [hfin]
  · intro hnm d hd hteq
    obtain ⟨fc, hfc, hdfc⟩ := List.mem_map.mp hd
    have htitle : d.title = fc.1.book ++ " " ++ natToString fc.1.chapter := by
      rw [← hdfc]; rfl
    rw [htitle] at hteq
    obtain ⟨hb, hc⟩ := mkTitle_inj fc.1.book B fc.1.chapter C hteq
    exact hnm fc hfc (by rw [← hb, ← hc])

/-- C7 witness: requesting "X 1" against a stream holding only book "Y"
succeeds with no documents. -/
theorem unmatched_key_no_error_witness :
    ∃ finished,
      scanLoop 1 (buildReq [⟨"X", 1⟩]) initState [.Start "b" [("n", "Y")], .Eof]
        = .ok finished ∧
      runProgram ["X 1"] [.Start "b" [("n", "Y")], .Eof] = .ok (finished.map buildDoc) ∧
      ((∀ fc ∈ finished, fc.1 ≠ BookAndChapter.mk "X" 1) →
        ∀ d ∈ finished.map buildDoc, d.title ≠ "X" ++ " " ++ natToString 1) :=
  unmatched_key_no_error ["X 1"] [⟨"X", 1⟩] [.Start "b" [("n", "Y")], .Eof] "X" 1 rfl
    (by decide)

end Bible
